import Mathlib

/-!
Verification of the boids simulation core in src/boids-py/main.py.

The embedding models pygame.Vector2 as a pair of real numbers.  The
floating-point arithmetic of the source is idealized to exact real
arithmetic (the specification itself states its numeric properties
"within floating tolerance").  pygame raises an error when normalize is
called on a zero-length vector, so normalize returns an Option here and
every computation that may reach such a call is Option-valued.

Python compares boids with object identity (the class defines no custom
equality).  The neighbor filters pair the identity test with a strictly
positive distance test, and two structurally equal boids are at distance
zero from each other, so structural equality gives the same filter; the
embedding uses structural equality.

The unused field life_history of the Python class is omitted: no code in
the repository ever reads it.
-/

open Classical

/-- Screen width constant WIDTH from main.py. -/
def WIDTH : ℝ := 1070

/-- Screen height constant HEIGHT from main.py. -/
def HEIGHT : ℝ := 800

/-- Speed cap constant MAX_SPEED from main.py (pixels per second). -/
def MAX_SPEED : ℝ := 240

/-- Steering force cap constant MAX_FORCE from main.py. -/
def MAX_FORCE : ℝ := 200

/-- Neighbor perception radius PERCEPTION from main.py. -/
def PERCEPTION : ℝ := 50

/-- Separation radius SEPARATION from main.py. -/
def SEPARATION : ℝ := 50

/-- Pointer perception radius MOUSE_PERCEPTION from main.py. -/
def MOUSE_PERCEPTION : ℝ := 100

/-- Pointer force magnitude MOUSE_FORCE from main.py. -/
def MOUSE_FORCE : ℝ := 30

/-- Model of pygame.Vector2: a pair of real scalars. -/
@[ext]
structure Vec where
  x : ℝ
  y : ℝ

instance : Zero Vec := ⟨⟨0, 0⟩⟩

instance : Add Vec := ⟨fun a b => ⟨a.x + b.x, a.y + b.y⟩⟩

instance : Sub Vec := ⟨fun a b => ⟨a.x - b.x, a.y - b.y⟩⟩

instance : Neg Vec := ⟨fun a => ⟨-a.x, -a.y⟩⟩

instance : HMul Vec ℝ Vec := ⟨fun v c => ⟨v.x * c, v.y * c⟩⟩

noncomputable instance : HDiv Vec ℝ Vec := ⟨fun v c => ⟨v.x / c, v.y / c⟩⟩

/-- pygame Vector2.length: the Euclidean magnitude. -/
noncomputable def Vec.length (v : Vec) : ℝ := Real.sqrt (v.x ^ 2 + v.y ^ 2)

/-- pygame Vector2.normalize: fails (raises) on a zero-length vector,
otherwise divides the vector by its length. -/
noncomputable def Vec.normalize (v : Vec) : Option Vec :=
  if v.length = 0 then none else some (v / v.length)

/-- pygame Vector2.distance_to: Euclidean distance between two points. -/
noncomputable def dist_to (a b : Vec) : ℝ := (b - a).length

/-- One boid: kinematic state only (main.py lines 31 to 39; the unused
life_history list is omitted, and the randomized constructor is external
input here). -/
@[ext]
structure Boid where
  position : Vec
  velocity : Vec
  acceleration : Vec

/-- The two-line clamp pattern repeated at the end of each behavior of
main.py (if steering.length() > MAX_FORCE: steering =
steering.normalize() * MAX_FORCE). -/
noncomputable def limit (s : Vec) : Option Vec :=
  if s.length > MAX_FORCE then (Vec.normalize s).map (fun u => u * MAX_FORCE) else some s

/-- The accumulation loop shared by align, cohesion and separation in
main.py: fold over the population, and for each boid passing the filter
add a contribution to steering and bump the counter.  The contribution
is Option-valued because the separation loop body calls normalize. -/
noncomputable def accumulate (pred : Boid → Prop) (contrib : Boid → Option Vec) :
    List Boid → Vec × Nat → Option (Vec × Nat)
  | [], acc => some acc
  | b :: rest, acc =>
    if pred b then
      (contrib b).bind (fun d => accumulate pred contrib rest (acc.1 + d, acc.2 + 1))
    else accumulate pred contrib rest acc

/-- Boid.align of main.py (lines 48 to 62): average the velocities of
the qualifying neighbors, rescale to MAX_SPEED, subtract own velocity,
clamp to MAX_FORCE; zero vector when no neighbor qualifies. -/
noncomputable def Boid.align (self : Boid) (boids : List Boid) : Option Vec := do
  let acc ← accumulate
    (fun boid => boid ≠ self ∧ dist_to self.position boid.position < PERCEPTION ∧
      dist_to self.position boid.position > 0)
    (fun boid => some boid.velocity) boids (0, 0)
  if acc.2 > 0 then do
    let u ← Vec.normalize (acc.1 / (acc.2 : ℝ))
    limit (u * MAX_SPEED - self.velocity)
  else
    pure acc.1

/-- Boid.cohesion of main.py (lines 64 to 79): average the positions of
the qualifying neighbors, steer toward that average. -/
noncomputable def Boid.cohesion (self : Boid) (boids : List Boid) : Option Vec := do
  let acc ← accumulate
    (fun boid => boid ≠ self ∧ dist_to self.position boid.position < PERCEPTION ∧
      dist_to self.position boid.position > 0)
    (fun boid => some boid.position) boids (0, 0)
  if acc.2 > 0 then do
    let u ← Vec.normalize (acc.1 / (acc.2 : ℝ) - self.position)
    limit (u * MAX_SPEED - self.velocity)
  else
    pure acc.1

/-- Boid.separation of main.py (lines 81 to 97): accumulate the
normalized offsets away from each qualifying neighbor, each divided by
the raw distance. -/
noncomputable def Boid.separation (self : Boid) (boids : List Boid) : Option Vec := do
  let acc ← accumulate
    (fun boid => boid ≠ self ∧ dist_to self.position boid.position < SEPARATION ∧
      dist_to self.position boid.position > 0)
    (fun boid => (Vec.normalize (self.position - boid.position)).map
      (fun u => u / dist_to self.position boid.position)) boids (0, 0)
  if acc.2 > 0 then do
    let u ← Vec.normalize (acc.1 / (acc.2 : ℝ))
    limit (u * MAX_SPEED - self.velocity)
  else
    pure acc.1

/-- Boid.react_to_mouse of main.py (lines 99 to 115). -/
noncomputable def Boid.react_to_mouse (self : Boid) (mouse_pos : Vec)
    (is_attracted : Bool) : Option Vec :=
  let distance := dist_to self.position mouse_pos
  if distance < MOUSE_PERCEPTION ∧ distance > 0 then do
    let diff ← Vec.normalize (mouse_pos - self.position)
    let steering := if is_attracted then diff * MOUSE_FORCE else (-diff) * MOUSE_FORCE
    limit steering
  else
    pure (0 : Vec)

/-- Boid.apply_behavior of main.py (lines 117 to 126): compute the four
forces and add them to the acceleration. -/
noncomputable def Boid.apply_behavior (self : Boid) (boids : List Boid)
    (mouse_pos : Vec) (is_attracted : Bool) : Option Boid := do
  let alignment ← self.align boids
  let coh ← self.cohesion boids
  let sep ← self.separation boids
  let mouse_reaction ← self.react_to_mouse mouse_pos is_attracted
  pure { self with
    acceleration := self.acceleration + alignment + coh + sep + mouse_reaction }

/-- Boid.update of main.py (lines 41 to 46): velocity += acceleration * dt,
clamp speed to MAX_SPEED, position += velocity * dt (the post-clamp
velocity), acceleration *= 0. -/
noncomputable def Boid.update (self : Boid) (dt : ℝ) : Option Boid := do
  let v1 := self.velocity + self.acceleration * dt
  let v2 : Vec ← if v1.length > MAX_SPEED then
    (Vec.normalize v1).map (fun u => (u * MAX_SPEED : Vec))
    else pure v1
  pure { self with
    position := self.position + v2 * dt,
    velocity := v2,
    acceleration := self.acceleration * (0 : ℝ) }

/-- Boid.edges of main.py (lines 128 to 136): the if / elif boundary
wrap on each coordinate. -/
noncomputable def Boid.edges (self : Boid) : Boid :=
  { self with position :=
    ⟨if self.position.x > WIDTH then 0 else if self.position.x < 0 then WIDTH
      else self.position.x,
     if self.position.y > HEIGHT then 0 else if self.position.y < 0 then HEIGHT
      else self.position.y⟩ }

/-- The body of the loop of update_all_boids for the boid at index i:
apply_behavior against the current list state, then update, then edges,
writing the result back at index i. -/
noncomputable def stepBoid (dt : ℝ) (mouse_pos : Vec) (is_attracted : Bool)
    (l : List Boid) (i : Nat) : Option (List Boid) :=
  match l[i]? with
  | none => pure l
  | some b => do
    let b1 ← b.apply_behavior l mouse_pos is_attracted
    let b2 ← b1.update dt
    pure (l.set i b2.edges)

/-- update_all_boids of main.py (lines 173 to 179): the Python for loop
iterates over the list object while each iteration mutates the current
boid in place, so iteration k sees the boids before position k already
updated.  The embedding folds over the indices, replacing each entry as
it is processed. -/
noncomputable def update_all_boids (boids : List Boid) (dt : ℝ) (mouse_pos : Vec)
    (is_attracted : Bool) : Option (List Boid) :=
  (List.range boids.length).foldlM (fun l i => stepBoid dt mouse_pos is_attracted l i) boids

/-- Sequential (Gauss-Seidel) description of the frame update: the done
prefix holds the already fully updated boids, and each remaining boid
computes its forces against done ++ remaining before being integrated,
wrapped and appended to done. -/
noncomputable def seqUpdate (dt : ℝ) (mouse_pos : Vec) (is_attracted : Bool) :
    List Boid → List Boid → Option (List Boid)
  | done, [] => pure done
  | done, b :: todo => do
    let b1 ← b.apply_behavior (done ++ b :: todo) mouse_pos is_attracted
    let b2 ← b1.update dt
    seqUpdate dt mouse_pos is_attracted (done ++ [b2.edges]) todo

/-- Modelled from the spec: the barrier (snapshot) semantics of
section 4.4 of the specification, phase 1 computing every acceleration
against the same pre-step population, phase 2 integrating and wrapping
every boid.  This is the semantics the specification ascribes to
update_all_boids; it is compared against the code above. -/
noncomputable def update_all_boids_snapshot (boids : List Boid) (dt : ℝ)
    (mouse_pos : Vec) (is_attracted : Bool) : Option (List Boid) := do
  let accelerated ← boids.mapM (fun b => b.apply_behavior boids mouse_pos is_attracted)
  accelerated.mapM (fun b => (b.update dt).map Boid.edges)

/-- The K_UP handler of main.py (line 199): boids.extend of a list of
freshly constructed boids.  Boid construction is randomized, so the new
boids are an input here; growing by n means new has length n. -/
def grow (flock new : List Boid) : List Boid := flock ++ new

/-- n successive boids.pop() calls: each removes the last element. -/
def popN : Nat → List Boid → List Boid
  | 0, l => l
  | n + 1, l => popN n l.dropLast

/-- The K_DOWN handler of main.py (lines 200 to 202): pop once per
iteration of range(min(n, len(boids))); the source uses n = 10. -/
def shrink (n : Nat) (flock : List Boid) : List Boid := popN (min n flock.length) flock

/-- cA after phase 1 of the frame: acceleration 140 + 140 - 200 = 80. -/
noncomputable def cA1 : Boid := ⟨⟨0, 0⟩, ⟨100, 0⟩, ⟨80, 0⟩⟩

/-- cA after integration with dt = 1: velocity 100 + 80, position 0 + 180. -/
noncomputable def cA2 : Boid := ⟨⟨180, 0⟩, ⟨180, 0⟩, ⟨0, 0⟩⟩

/-- cB after phase 1 of the snapshot semantics: it still sees cA at
distance 45, cohesion contributes a clamped force of -200. -/
noncomputable def cB1s : Boid := ⟨⟨45, 0⟩, ⟨240, 0⟩, ⟨-200, 0⟩⟩

/-- cB after phase 2 of the snapshot semantics: velocity 240 - 200 = 40,
position 45 + 40 = 85. -/
noncomputable def cB2s : Boid := ⟨⟨85, 0⟩, ⟨40, 0⟩, ⟨0, 0⟩⟩

/-- cB after the sequential frame: it saw only the already-moved cA2
(out of range), so it keeps velocity 240 and drifts to x = 285. -/
noncomputable def cB2 : Boid := ⟨⟨285, 0⟩, ⟨240, 0⟩, ⟨0, 0⟩⟩

/-- Concrete two-boid population used to compare the sequential frame
update of the code with the snapshot semantics of the specification. -/
noncomputable def cA : Boid := ⟨⟨0, 0⟩, ⟨100, 0⟩, ⟨0, 0⟩⟩

/-- Second boid of the concrete population, 45 pixels right of cA. -/
noncomputable def cB : Boid := ⟨⟨45, 0⟩, ⟨240, 0⟩, ⟨0, 0⟩⟩

/-- Pointer position far away from both concrete boids. -/
noncomputable def cMouse : Vec := ⟨500, 0⟩

/-- Acting agent of the degenerate-alignment population. -/
noncomputable def czS : Boid := ⟨⟨0, 0⟩, ⟨1, 0⟩, ⟨0, 0⟩⟩

/-- First neighbor: in perception range, velocity straight up. -/
noncomputable def czA : Boid := ⟨⟨10, 0⟩, ⟨0, 1⟩, ⟨0, 0⟩⟩

/-- Second neighbor: in perception range, velocity straight down, so the
two neighbor velocities sum to the zero vector. -/
noncomputable def czB : Boid := ⟨⟨20, 0⟩, ⟨0, -1⟩, ⟨0, 0⟩⟩

/-- Boid just left of the left edge: wrapBoundary sends it to x = WIDTH. -/
noncomputable def cw5 : Boid := ⟨⟨-1, 5⟩, ⟨0, 0⟩, ⟨0, 0⟩⟩

/-- Boid past the right edge whose y coordinate is also below 0. -/
noncomputable def cw6 : Boid := ⟨⟨1071, -1⟩, ⟨3, 4⟩, ⟨0, 0⟩⟩

/-- Boid used in the C3 witness: its velocity already exceeds MAX_SPEED. -/
noncomputable def cw3 : Boid := ⟨⟨0, 0⟩, ⟨300, 0⟩, ⟨0, 0⟩⟩

/-- Boid past the right edge with its y coordinate inside the world. -/
noncomputable def cwit6 : Boid := ⟨⟨1071, 5⟩, ⟨3, 4⟩, ⟨0, 0⟩⟩

lemma Vec.zero_def : (0 : Vec) = ⟨0, 0⟩ := rfl

@[simp] lemma Vec.zero_x : (0 : Vec).x = 0 := rfl

@[simp] lemma Vec.zero_y : (0 : Vec).y = 0 := rfl

@[simp] lemma Vec.add_mk (a b c d : ℝ) :
    (⟨a, b⟩ + ⟨c, d⟩ : Vec) = ⟨a + c, b + d⟩ := rfl

@[simp] lemma Vec.sub_mk (a b c d : ℝ) :
    (⟨a, b⟩ - ⟨c, d⟩ : Vec) = ⟨a - c, b - d⟩ := rfl

@[simp] lemma Vec.neg_mk (a b : ℝ) : (-(⟨a, b⟩ : Vec)) = ⟨-a, -b⟩ := rfl

@[simp] lemma Vec.mul_mk (a b c : ℝ) : ((⟨a, b⟩ : Vec) * c) = ⟨a * c, b * c⟩ := rfl

@[simp] lemma Vec.div_mk (a b c : ℝ) : ((⟨a, b⟩ : Vec) / c) = ⟨a / c, b / c⟩ := rfl

@[simp] lemma Vec.add_x (a b : Vec) : (a + b).x = a.x + b.x := rfl

@[simp] lemma Vec.add_y (a b : Vec) : (a + b).y = a.y + b.y := rfl

@[simp] lemma Vec.sub_x (a b : Vec) : (a - b).x = a.x - b.x := rfl

@[simp] lemma Vec.sub_y (a b : Vec) : (a - b).y = a.y - b.y := rfl

@[simp] lemma Vec.mul_x (a : Vec) (c : ℝ) : (a * c).x = a.x * c := rfl

@[simp] lemma Vec.mul_y (a : Vec) (c : ℝ) : (a * c).y = a.y * c := rfl

@[simp] lemma Vec.div_x (a : Vec) (c : ℝ) : (a / c).x = a.x / c := rfl

@[simp] lemma Vec.div_y (a : Vec) (c : ℝ) : (a / c).y = a.y / c := rfl

@[simp] lemma Vec.x_mk (a b : ℝ) : (⟨a, b⟩ : Vec).x = a := rfl

@[simp] lemma Vec.y_mk (a b : ℝ) : (⟨a, b⟩ : Vec).y = b := rfl

lemma Vec.length_nonneg (v : Vec) : 0 ≤ v.length := Real.sqrt_nonneg _

lemma Vec.length_mk (a b : ℝ) : Vec.length ⟨a, b⟩ = Real.sqrt (a ^ 2 + b ^ 2) := rfl

@[simp] lemma Vec.length_zero : (0 : Vec).length = 0 := by
  rw [Vec.zero_def, Vec.length_mk, show (0 : ℝ) ^ 2 + 0 ^ 2 = 0 by ring, Real.sqrt_zero]

lemma Vec.length_eq_zero_iff (v : Vec) : v.length = 0 ↔ v = 0 := by
  constructor
  · intro h
    have hle : v.x ^ 2 + v.y ^ 2 ≤ 0 := Real.sqrt_eq_zero'.mp h
    have hx : v.x ^ 2 = 0 := by nlinarith [sq_nonneg v.x, sq_nonneg v.y]
    have hy : v.y ^ 2 = 0 := by nlinarith [sq_nonneg v.x, sq_nonneg v.y]
    have hx0 : v.x = 0 := by
      have := pow_eq_zero_iff (n := 2) (by norm_num) |>.mp hx
      exact this
    have hy0 : v.y = 0 := by
      have := pow_eq_zero_iff (n := 2) (by norm_num) |>.mp hy
      exact this
    ext <;> simp [hx0, hy0, Vec.zero_def]
  · intro h
    rw [h]
    exact Vec.length_zero

lemma Vec.length_pos (v : Vec) (h : v ≠ 0) : 0 < v.length := by
  rcases (Vec.length_nonneg v).lt_or_eq with h1 | h1
  · exact h1
  · exact absurd ((Vec.length_eq_zero_iff v).mp h1.symm) h

lemma Vec.length_mk_x (a : ℝ) : Vec.length ⟨a, 0⟩ = |a| := by
  rw [Vec.length_mk, show a ^ 2 + (0 : ℝ) ^ 2 = a ^ 2 by ring, Real.sqrt_sq_eq_abs]

lemma Vec.sq_length (v : Vec) : v.length ^ 2 = v.x ^ 2 + v.y ^ 2 :=
  Real.sq_sqrt (by positivity)

lemma Vec.length_mul (v : Vec) (c : ℝ) : (v * c).length = v.length * |c| := by
  have : (v * c).length = Real.sqrt ((v.x ^ 2 + v.y ^ 2) * c ^ 2) := by
    rw [Vec.length]
    congr 1
    simp
    ring
  rw [this, Real.sqrt_mul (by positivity), Real.sqrt_sq_eq_abs, Vec.length]

lemma dist_to_mk_x (a b : ℝ) : dist_to ⟨a, 0⟩ ⟨b, 0⟩ = |b - a| := by
  rw [dist_to, Vec.sub_mk, show (0 : ℝ) - 0 = 0 by ring, Vec.length_mk_x]

lemma Vec.normalize_eq_none_iff (v : Vec) : v.normalize = none ↔ v = 0 := by
  rw [Vec.normalize]
  split
  · simp_all [Vec.length_eq_zero_iff]
  · simp_all [Vec.length_eq_zero_iff]

lemma Vec.normalize_of_ne (v : Vec) (h : v ≠ 0) :
    v.normalize = some (v / v.length) := by
  rw [Vec.normalize, if_neg]
  rw [Ne, ← Vec.length_eq_zero_iff] at h
  exact h

lemma Vec.length_normalize (v u : Vec) (h : v.normalize = some u) : u.length = 1 := by
  have hv : v ≠ 0 := by
    intro h0
    rw [(Vec.normalize_eq_none_iff v).mpr h0] at h
    exact Option.noConfusion h
  have hL : 0 < v.length := Vec.length_pos v hv
  rw [Vec.normalize_of_ne v hv] at h
  have hu : u = v / v.length := (Option.some.inj h).symm
  rw [hu, Vec.length]
  have hcomp : (v / v.length).x ^ 2 + (v / v.length).y ^ 2
      = (v.x ^ 2 + v.y ^ 2) / v.length ^ 2 := by
    simp
    ring
  rw [hcomp, ← Vec.sq_length, div_self (pow_ne_zero 2 hL.ne'), Real.sqrt_one]

lemma Vec.length_normalize_mul (v u : Vec) (c : ℝ) (h : v.normalize = some u) :
    (u * c).length = |c| := by
  rw [Vec.length_mul, Vec.length_normalize v u h, one_mul]

lemma limit_total (s : Vec) : ∃ f, limit s = some f ∧ f.length ≤ MAX_FORCE := by
  by_cases h : s.length > MAX_FORCE
  · have hs : s ≠ 0 := by
      intro h0
      rw [h0, Vec.length_zero] at h
      norm_num [MAX_FORCE] at h
    refine ⟨(s / s.length) * MAX_FORCE, ?_, ?_⟩
    · rw [limit, if_pos h, Vec.normalize_of_ne s hs, Option.map_some']
    · rw [Vec.length_normalize_mul s _ MAX_FORCE (Vec.normalize_of_ne s hs)]
      rw [abs_of_nonneg (by norm_num [MAX_FORCE])]
  · exact ⟨s, by rw [limit, if_neg h], not_lt.mp h⟩

lemma limit_bound {s f : Vec} (h : limit s = some f) : f.length ≤ MAX_FORCE := by
  obtain ⟨g, hg, hle⟩ := limit_total s
  rw [hg] at h
  rw [← Option.some.inj h]
  exact hle

lemma limit_of_le {s : Vec} (h : s.length ≤ MAX_FORCE) : limit s = some s := by
  rw [limit, if_neg (not_lt.mpr h)]

lemma accumulate_count_le (pred : Boid → Prop) (contrib : Boid → Option Vec) :
    ∀ (l : List Boid) (acc r : Vec × Nat),
      accumulate pred contrib l acc = some r → acc.2 ≤ r.2 := by
  intro l
  induction l with
  | nil =>
    intro acc r h
    rw [accumulate] at h
    rw [← Option.some.inj h]
  | cons b rest ih =>
    intro acc r h
    rw [accumulate] at h
    by_cases hp : pred b
    · rw [if_pos hp] at h
      cases hc : contrib b with
      | none => rw [hc] at h; exact Option.noConfusion h
      | some d =>
        rw [hc, Option.some_bind] at h
        have := ih _ _ h
        omega
    · rw [if_neg hp] at h
      exact ih _ _ h

lemma accumulate_stable (pred : Boid → Prop) (contrib : Boid → Option Vec) :
    ∀ (l : List Boid) (acc r : Vec × Nat),
      accumulate pred contrib l acc = some r → r.2 = acc.2 → r = acc := by
  intro l
  induction l with
  | nil =>
    intro acc r h _
    exact (Option.some.inj h).symm
  | cons b rest ih =>
    intro acc r h heq
    rw [accumulate] at h
    by_cases hp : pred b
    · rw [if_pos hp] at h
      cases hc : contrib b with
      | none => rw [hc] at h; exact Option.noConfusion h
      | some d =>
        rw [hc, Option.some_bind] at h
        have := accumulate_count_le pred contrib rest _ _ h
        simp at this
        omega
    · rw [if_neg hp] at h
      exact ih _ _ h heq

lemma accumulate_of_no_pred (pred : Boid → Prop) (contrib : Boid → Option Vec) :
    ∀ (l : List Boid) (acc : Vec × Nat), (∀ b ∈ l, ¬ pred b) →
      accumulate pred contrib l acc = some acc := by
  intro l
  induction l with
  | nil => intro acc _; rfl
  | cons b rest ih =>
    intro acc h
    rw [accumulate, if_neg (h b (List.mem_cons_self b rest))]
    exact ih acc (fun c hc => h c (List.mem_cons_of_mem b hc))

lemma steer_bound (P : Boid → Prop) (contrib : Boid → Option Vec) (boids : List Boid)
    (post : Vec × Nat → Vec) (vel : Vec) (f : Vec)
    (h : (do
      let acc ← accumulate P contrib boids (0, 0)
      if acc.2 > 0 then do
        let u ← Vec.normalize (post acc)
        limit (u * MAX_SPEED - vel)
      else pure acc.1) = some f) : f.length ≤ MAX_FORCE := by
  cases hacc : accumulate P contrib boids (0, 0) with
  | none => rw [hacc] at h; simp at h
  | some acc =>
    rw [hacc] at h
    by_cases hpos : acc.2 > 0
    · simp only [Option.bind_eq_bind, Option.some_bind] at h
      rw [if_pos hpos] at h
      cases hn : Vec.normalize (post acc) with
      | none => simp [hn] at h
      | some u =>
        rw [hn] at h
        simp only [Option.bind_eq_bind, Option.some_bind] at h
        exact limit_bound h
    · simp only [Option.bind_eq_bind, Option.some_bind] at h
      rw [if_neg hpos] at h
      have hacc0 : acc = ((0 : Vec), (0 : Nat)) := by
        refine accumulate_stable P contrib boids (0, 0) acc hacc ?_
        show acc.2 = 0
        omega
      have hf : f = (0 : Vec) := by
        rw [hacc0] at h
        exact (Option.some.inj h).symm
      rw [hf, Vec.length_zero]
      norm_num [MAX_FORCE]

lemma align_bound (self : Boid) (boids : List Boid) (f : Vec)
    (h : self.align boids = some f) : f.length ≤ MAX_FORCE := by
  rw [Boid.align] at h
  exact steer_bound _ _ boids (fun acc => acc.1 / (acc.2 : ℝ)) self.velocity f h

lemma cohesion_bound (self : Boid) (boids : List Boid) (f : Vec)
    (h : self.cohesion boids = some f) : f.length ≤ MAX_FORCE := by
  rw [Boid.cohesion] at h
  exact steer_bound _ _ boids (fun acc => acc.1 / (acc.2 : ℝ) - self.position)
    self.velocity f h

lemma separation_bound (self : Boid) (boids : List Boid) (f : Vec)
    (h : self.separation boids = some f) : f.length ≤ MAX_FORCE := by
  rw [Boid.separation] at h
  exact steer_bound _ _ boids (fun acc => acc.1 / (acc.2 : ℝ)) self.velocity f h

lemma react_bound (self : Boid) (mouse_pos : Vec) (att : Bool) (f : Vec)
    (h : self.react_to_mouse mouse_pos att = some f) : f.length ≤ MAX_FORCE := by
  rw [Boid.react_to_mouse] at h
  by_cases hc : dist_to self.position mouse_pos < MOUSE_PERCEPTION ∧
      dist_to self.position mouse_pos > 0
  · rw [if_pos hc] at h
    cases hn : Vec.normalize (mouse_pos - self.position) with
    | none => simp [hn] at h
    | some u =>
      rw [hn] at h
      simp only [Option.bind_eq_bind, Option.some_bind] at h
      exact limit_bound h
  · rw [if_neg hc] at h
    have hf : f = (0 : Vec) := (Option.some.inj h).symm
    rw [hf, Vec.length_zero]
    norm_num [MAX_FORCE]

lemma react_total (self : Boid) (mouse_pos : Vec) (att : Bool) :
    ∃ f, self.react_to_mouse mouse_pos att = some f ∧ f.length ≤ MAX_FORCE := by
  rw [Boid.react_to_mouse]
  by_cases hc : dist_to self.position mouse_pos < MOUSE_PERCEPTION ∧
      dist_to self.position mouse_pos > 0
  · rw [if_pos hc]
    have hne : mouse_pos - self.position ≠ 0 := by
      intro h0
      have hz : dist_to self.position mouse_pos = 0 := by
        rw [dist_to, h0, Vec.length_zero]
      have := hc.2
      rw [hz] at this
      exact lt_irrefl 0 this
    rw [Vec.normalize_of_ne _ hne]
    simp only [Option.bind_eq_bind, Option.some_bind]
    obtain ⟨f, hf, hb⟩ := limit_total ((if att then
      ((mouse_pos - self.position) / (mouse_pos - self.position).length) * MOUSE_FORCE
      else (-((mouse_pos - self.position) / (mouse_pos - self.position).length)) * MOUSE_FORCE))
    exact ⟨f, hf, hb⟩
  · rw [if_neg hc]
    refine ⟨0, rfl, ?_⟩
    rw [Vec.length_zero]
    norm_num [MAX_FORCE]

lemma update_spec (b : Boid) (dt : ℝ) :
    ∃ b2, b.update dt = some b2 ∧
      b2.velocity.length ≤ MAX_SPEED ∧
      ((b.velocity + b.acceleration * dt).length > MAX_SPEED →
        b2.velocity.length = MAX_SPEED ∧
        ∃ c : ℝ, 0 < c ∧ b2.velocity = (b.velocity + b.acceleration * dt) * c) ∧
      b2.position = b.position + b2.velocity * dt ∧
      b2.acceleration = 0 := by
  rw [Boid.update]
  set v1 : Vec := b.velocity + b.acceleration * dt with hv1
  have hacc0 : b.acceleration * (0 : ℝ) = 0 := by
    ext <;> simp [Vec.zero_def]
  by_cases hgt : v1.length > MAX_SPEED
  · have hne : v1 ≠ 0 := by
      intro h0
      rw [h0, Vec.length_zero] at hgt
      norm_num [MAX_SPEED] at hgt
    have hL : 0 < v1.length := Vec.length_pos v1 hne
    rw [if_pos hgt, Vec.normalize_of_ne _ hne, Option.map_some']
    simp only [Option.bind_eq_bind, Option.some_bind]
    refine ⟨_, rfl, ?_, ?_, ?_, ?_⟩
    · rw [Vec.length_normalize_mul v1 _ MAX_SPEED (Vec.normalize_of_ne _ hne)]
      rw [abs_of_nonneg (by norm_num [MAX_SPEED])]
    · intro _
      constructor
      · rw [Vec.length_normalize_mul v1 _ MAX_SPEED (Vec.normalize_of_ne _ hne)]
        rw [abs_of_nonneg (by norm_num [MAX_SPEED])]
      · refine ⟨MAX_SPEED / v1.length, div_pos (by norm_num [MAX_SPEED]) hL, ?_⟩
        ext <;> simp <;> ring
    · rfl
    · exact hacc0
  · rw [if_neg hgt]
    simp only [Option.bind_eq_bind, Option.pure_def, Option.some_bind]
    refine ⟨_, rfl, not_lt.mp hgt, fun hcon => absurd hcon hgt, rfl, hacc0⟩

lemma align_isolated (self : Boid) (boids : List Boid)
    (h : ∀ b ∈ boids, ¬(b ≠ self ∧ dist_to self.position b.position < PERCEPTION ∧
      dist_to self.position b.position > 0)) : self.align boids = some 0 := by
  rw [Boid.align, accumulate_of_no_pred _ _ boids (0, 0) h]
  simp only [Option.bind_eq_bind, Option.some_bind]
  rw [if_neg (by omega)]
  rfl

lemma cohesion_isolated (self : Boid) (boids : List Boid)
    (h : ∀ b ∈ boids, ¬(b ≠ self ∧ dist_to self.position b.position < PERCEPTION ∧
      dist_to self.position b.position > 0)) : self.cohesion boids = some 0 := by
  rw [Boid.cohesion, accumulate_of_no_pred _ _ boids (0, 0) h]
  simp only [Option.bind_eq_bind, Option.some_bind]
  rw [if_neg (by omega)]
  rfl

lemma separation_isolated (self : Boid) (boids : List Boid)
    (h : ∀ b ∈ boids, ¬(b ≠ self ∧ dist_to self.position b.position < SEPARATION ∧
      dist_to self.position b.position > 0)) : self.separation boids = some 0 := by
  rw [Boid.separation, accumulate_of_no_pred _ _ boids (0, 0) h]
  simp only [Option.bind_eq_bind, Option.some_bind]
  rw [if_neg (by omega)]
  rfl

lemma set_pivot (done todo : List Boid) (b x : Boid) :
    (done ++ b :: todo).set done.length x = done ++ x :: todo := by
  rw [List.set_append_right _ _ (le_refl _), Nat.sub_self]
  rfl

lemma get_pivot (done todo : List Boid) (b : Boid) :
    (done ++ b :: todo)[done.length]? = some b := by
  rw [List.getElem?_append_right (le_refl _), Nat.sub_self]
  exact List.getElem?_cons_zero

lemma update_seq_aux (dt : ℝ) (mouse_pos : Vec) (att : Bool) :
    ∀ (todo done : List Boid),
      List.foldlM (fun l i => stepBoid dt mouse_pos att l i)
        (done ++ todo) (List.range' done.length todo.length)
      = seqUpdate dt mouse_pos att done todo := by
  intro todo
  induction todo with
  | nil =>
    intro done
    rw [List.length_nil, List.range', List.foldlM_nil, seqUpdate, List.append_nil]
  | cons b todo ih =>
    intro done
    rw [List.length_cons, List.range'_succ, List.foldlM_cons, seqUpdate]
    have hstep : stepBoid dt mouse_pos att (done ++ b :: todo) done.length
        = (do
          let b1 ← b.apply_behavior (done ++ b :: todo) mouse_pos att
          let b2 ← b1.update dt
          pure ((done ++ b :: todo).set done.length b2.edges)) := by
      rw [stepBoid, get_pivot]
    rw [hstep]
    cases ha : b.apply_behavior (done ++ b :: todo) mouse_pos att with
    | none => simp [ha]
    | some b1 =>
      cases hu : b1.update dt with
      | none => simp [ha, hu]
      | some b2 =>
        have ih2 := ih (done ++ [b2.edges])
        simp only [List.append_assoc, List.cons_append, List.nil_append,
          List.length_append, List.length_singleton] at ih2
        simp only [ha, hu, Option.bind_eq_bind, Option.some_bind, Option.pure_def]
        rw [set_pivot]
        exact ih2

lemma update_all_eq_seq (boids : List Boid) (dt : ℝ) (mouse_pos : Vec) (att : Bool) :
    update_all_boids boids dt mouse_pos att = seqUpdate dt mouse_pos att [] boids := by
  rw [update_all_boids, List.range_eq_range']
  have h := update_seq_aux dt mouse_pos att boids []
  rw [List.nil_append, List.length_nil] at h
  exact h

lemma popN_length : ∀ (n : Nat) (l : List Boid), n ≤ l.length →
    (popN n l).length = l.length - n := by
  intro n
  induction n with
  | zero => intro l _; rw [popN]; omega
  | succ k ih =>
    intro l hle
    rw [popN, ih l.dropLast (by rw [List.length_dropLast]; omega), List.length_dropLast]
    omega

lemma sqrt_eval {a b : ℝ} (hb : 0 ≤ b) (h : b ^ 2 = a) : Real.sqrt a = b := by
  rw [← h, Real.sqrt_sq hb]

lemma normalize_mk_pos {a : ℝ} (ha : 0 < a) : Vec.normalize ⟨a, 0⟩ = some ⟨1, 0⟩ := by
  have hl : Vec.length ⟨a, 0⟩ = a := by rw [Vec.length_mk_x, abs_of_pos ha]
  rw [Vec.normalize, hl, if_neg ha.ne', Vec.div_mk, div_self ha.ne', zero_div]

lemma normalize_mk_neg {a : ℝ} (ha : a < 0) : Vec.normalize ⟨a, 0⟩ = some ⟨-1, 0⟩ := by
  have hl : Vec.length ⟨a, 0⟩ = -a := by rw [Vec.length_mk_x, abs_of_neg ha]
  rw [Vec.normalize, hl, if_neg (by linarith), Vec.div_mk, zero_div, div_neg,
    div_self ha.ne]

lemma limit_eval_clamp {s u : Vec} (hgt : s.length > MAX_FORCE)
    (hn : Vec.normalize s = some u) : limit s = some (u * MAX_FORCE) := by
  rw [limit, if_pos hgt, hn, Option.map_some']

lemma neq_cB_cA : cB ≠ cA := by
  intro h
  rw [cA, cB, Boid.mk.injEq, Vec.mk.injEq] at h
  norm_num at h

lemma neq_cA_cB : cA ≠ cB := by
  intro h
  rw [cA, cB, Boid.mk.injEq, Vec.mk.injEq] at h
  norm_num at h

lemma dist_cA_cB : dist_to cA.position cB.position = 45 := by
  rw [show cA.position = ⟨0, 0⟩ from rfl, show cB.position = ⟨45, 0⟩ from rfl, dist_to_mk_x]
  norm_num

lemma dist_cB_cA : dist_to cB.position cA.position = 45 := by
  rw [show cB.position = ⟨45, 0⟩ from rfl, show cA.position = ⟨0, 0⟩ from rfl, dist_to_mk_x]
  norm_num

lemma halA : Boid.align cA [cA, cB] = some ⟨140, 0⟩ := by
  rw [Boid.align, accumulate, if_neg (by simp), accumulate,
    if_pos ⟨neq_cB_cA, by rw [dist_cA_cB]; norm_num [PERCEPTION], by rw [dist_cA_cB]; norm_num⟩,
    Option.some_bind, accumulate]
  simp only [Option.bind_eq_bind, Option.some_bind]
  rw [if_pos (by norm_num)]
  have hv : ((0 : Vec) + cB.velocity) / ((0 + 1 : ℕ) : ℝ) = ⟨240, 0⟩ := by
    rw [Vec.zero_def, show cB.velocity = ⟨240, 0⟩ from rfl]
    norm_num
  rw [hv, normalize_mk_pos (by norm_num), Option.some_bind]
  have hs : (⟨1, 0⟩ : Vec) * MAX_SPEED - cA.velocity = ⟨140, 0⟩ := by
    rw [show cA.velocity = ⟨100, 0⟩ from rfl, MAX_SPEED]
    norm_num
  rw [hs, limit_of_le (by rw [Vec.length_mk_x]; norm_num [MAX_FORCE])]

lemma hcoA : Boid.cohesion cA [cA, cB] = some ⟨140, 0⟩ := by
  rw [Boid.cohesion, accumulate, if_neg (by simp), accumulate,
    if_pos ⟨neq_cB_cA, by rw [dist_cA_cB]; norm_num [PERCEPTION], by rw [dist_cA_cB]; norm_num⟩,
    Option.some_bind, accumulate]
  simp only [Option.bind_eq_bind, Option.some_bind]
  rw [if_pos (by norm_num)]
  have hv : ((0 : Vec) + cB.position) / ((0 + 1 : ℕ) : ℝ) - cA.position = ⟨45, 0⟩ := by
    rw [Vec.zero_def, show cB.position = ⟨45, 0⟩ from rfl, show cA.position = ⟨0, 0⟩ from rfl]
    norm_num
  rw [hv, normalize_mk_pos (by norm_num), Option.some_bind]
  have hs : (⟨1, 0⟩ : Vec) * MAX_SPEED - cA.velocity = ⟨140, 0⟩ := by
    rw [show cA.velocity = ⟨100, 0⟩ from rfl, MAX_SPEED]
    norm_num
  rw [hs, limit_of_le (by rw [Vec.length_mk_x]; norm_num [MAX_FORCE])]

lemma hseA : Boid.separation cA [cA, cB] = some ⟨-200, 0⟩ := by
  rw [Boid.separation, accumulate, if_neg (by simp), accumulate,
    if_pos ⟨neq_cB_cA, by rw [dist_cA_cB]; norm_num [SEPARATION], by rw [dist_cA_cB]; norm_num⟩]
  have hcon : (Vec.normalize (cA.position - cB.position)).map
      (fun (u : Vec) => u / dist_to cA.position cB.position) = some (⟨-1 / 45, 0⟩ : Vec) := by
    rw [show cA.position - cB.position = ⟨-45, 0⟩ by
        rw [show cA.position = ⟨0, 0⟩ from rfl, show cB.position = ⟨45, 0⟩ from rfl]; norm_num,
      normalize_mk_neg (by norm_num), dist_cA_cB, Option.map_some']
    norm_num
  rw [hcon, Option.some_bind, accumulate]
  simp only [Option.bind_eq_bind, Option.some_bind]
  rw [if_pos (by norm_num)]
  have hv : ((0 : Vec) + ⟨-1 / 45, 0⟩) / ((0 + 1 : ℕ) : ℝ) = ⟨-1 / 45, 0⟩ := by
    rw [Vec.zero_def]
    norm_num
  rw [hv, normalize_mk_neg (by norm_num), Option.some_bind]
  have hs : (⟨-1, 0⟩ : Vec) * MAX_SPEED - cA.velocity = ⟨-340, 0⟩ := by
    rw [show cA.velocity = ⟨100, 0⟩ from rfl, MAX_SPEED]
    norm_num
  rw [hs, limit_eval_clamp (by rw [Vec.length_mk_x]; norm_num [MAX_FORCE])
    (normalize_mk_neg (by norm_num)), MAX_FORCE]
  norm_num

lemma dist_cA_cMouse : dist_to cA.position cMouse = 500 := by
  rw [show cA.position = ⟨0, 0⟩ from rfl, cMouse, dist_to_mk_x]
  norm_num

lemma hreA : Boid.react_to_mouse cA cMouse false = some 0 := by
  have hc : ¬(dist_to cA.position cMouse < MOUSE_PERCEPTION ∧
      dist_to cA.position cMouse > 0) := by
    intro hcon
    obtain ⟨h1, -⟩ := hcon
    rw [dist_cA_cMouse, MOUSE_PERCEPTION] at h1
    norm_num at h1
  rw [Boid.react_to_mouse, if_neg hc]
  rfl

lemma happA : Boid.apply_behavior cA [cA, cB] cMouse false = some cA1 := by
  rw [Boid.apply_behavior, halA, hcoA, hseA, hreA]
  simp only [Option.bind_eq_bind, Option.some_bind]
  apply congrArg
  ext <;> norm_num [cA, cA1, Vec.zero_def]

lemma hupA : Boid.update cA1 1 = some cA2 := by
  rw [Boid.update]
  have hv1 : cA1.velocity + cA1.acceleration * (1 : ℝ) = ⟨180, 0⟩ := by
    rw [show cA1.velocity = ⟨100, 0⟩ from rfl, show cA1.acceleration = ⟨80, 0⟩ from rfl]
    norm_num
  rw [hv1, if_neg (by rw [Vec.length_mk_x]; norm_num [MAX_SPEED])]
  simp only [Option.bind_eq_bind, Option.pure_def, Option.some_bind]
  apply congrArg
  ext <;> norm_num [cA1, cA2]

lemma hedA : Boid.edges cA2 = cA2 := by
  rw [Boid.edges, show cA2.position.x = (180 : ℝ) from rfl,
    show cA2.position.y = (0 : ℝ) from rfl,
    if_neg (by norm_num [WIDTH]), if_neg (by norm_num),
    if_neg (by norm_num [HEIGHT]), if_neg (by norm_num)]
  rfl

lemma hstep0 : stepBoid 1 cMouse false [cA, cB] 0 = some [cA2, cB] := by
  have h : stepBoid 1 cMouse false [cA, cB] 0 = (do
      let b1 ← cA.apply_behavior [cA, cB] cMouse false
      let b2 ← b1.update 1
      pure (([cA, cB]).set 0 b2.edges)) := by
    rw [stepBoid, show ([cA, cB][0]? : Option Boid) = some cA from rfl]
  rw [h, happA]
  simp only [Option.bind_eq_bind, Option.some_bind]
  rw [hupA]
  simp only [Option.some_bind]
  rw [hedA]
  rfl

lemma dist_cB_cA2 : dist_to cB.position cA2.position = 135 := by
  rw [show cB.position = ⟨45, 0⟩ from rfl, show cA2.position = ⟨180, 0⟩ from rfl, dist_to_mk_x]
  norm_num

lemma no_neighbor_cB_per : ∀ b ∈ [cA2, cB],
    ¬(b ≠ cB ∧ dist_to cB.position b.position < PERCEPTION ∧
      dist_to cB.position b.position > 0) := by
  intro b hb
  rcases List.mem_cons.mp hb with h | h
  · subst h
    intro hcon
    obtain ⟨-, h2, -⟩ := hcon
    rw [dist_cB_cA2, PERCEPTION] at h2
    norm_num at h2
  · rw [List.mem_singleton] at h
    subst h
    intro hcon
    exact hcon.1 rfl

lemma no_neighbor_cB_sep : ∀ b ∈ [cA2, cB],
    ¬(b ≠ cB ∧ dist_to cB.position b.position < SEPARATION ∧
      dist_to cB.position b.position > 0) := by
  intro b hb
  rcases List.mem_cons.mp hb with h | h
  · subst h
    intro hcon
    obtain ⟨-, h2, -⟩ := hcon
    rw [dist_cB_cA2, SEPARATION] at h2
    norm_num at h2
  · rw [List.mem_singleton] at h
    subst h
    intro hcon
    exact hcon.1 rfl

lemma dist_cB_cMouse : dist_to cB.position cMouse = 455 := by
  rw [show cB.position = ⟨45, 0⟩ from rfl, cMouse, dist_to_mk_x]
  norm_num

lemma hreB : Boid.react_to_mouse cB cMouse false = some 0 := by
  have hc : ¬(dist_to cB.position cMouse < MOUSE_PERCEPTION ∧
      dist_to cB.position cMouse > 0) := by
    intro hcon
    obtain ⟨h1, -⟩ := hcon
    rw [dist_cB_cMouse, MOUSE_PERCEPTION] at h1
    norm_num at h1
  rw [Boid.react_to_mouse, if_neg hc]
  rfl

lemma happB2 : Boid.apply_behavior cB [cA2, cB] cMouse false = some cB := by
  rw [Boid.apply_behavior, align_isolated cB [cA2, cB] no_neighbor_cB_per,
    cohesion_isolated cB [cA2, cB] no_neighbor_cB_per,
    separation_isolated cB [cA2, cB] no_neighbor_cB_sep, hreB]
  simp only [Option.bind_eq_bind, Option.some_bind]
  apply congrArg
  ext <;> norm_num [cB]

lemma hupB2 : Boid.update cB 1 = some cB2 := by
  rw [Boid.update]
  have hv1 : cB.velocity + cB.acceleration * (1 : ℝ) = ⟨240, 0⟩ := by
    rw [show cB.velocity = ⟨240, 0⟩ from rfl, show cB.acceleration = ⟨0, 0⟩ from rfl]
    norm_num
  rw [hv1, if_neg (by rw [Vec.length_mk_x]; norm_num [MAX_SPEED])]
  simp only [Option.bind_eq_bind, Option.pure_def, Option.some_bind]
  apply congrArg
  ext <;> norm_num [cB, cB2]

lemma hedB2 : Boid.edges cB2 = cB2 := by
  rw [Boid.edges, show cB2.position.x = (285 : ℝ) from rfl,
    show cB2.position.y = (0 : ℝ) from rfl,
    if_neg (by norm_num [WIDTH]), if_neg (by norm_num),
    if_neg (by norm_num [HEIGHT]), if_neg (by norm_num)]
  rfl

lemma hstep1 : stepBoid 1 cMouse false [cA2, cB] 1 = some [cA2, cB2] := by
  have h : stepBoid 1 cMouse false [cA2, cB] 1 = (do
      let b1 ← cB.apply_behavior [cA2, cB] cMouse false
      let b2 ← b1.update 1
      pure (([cA2, cB]).set 1 b2.edges)) := by
    rw [stepBoid, show ([cA2, cB][1]? : Option Boid) = some cB from rfl]
  rw [h, happB2]
  simp only [Option.bind_eq_bind, Option.some_bind]
  rw [hupB2]
  simp only [Option.some_bind]
  rw [hedB2]
  rfl

lemma hseq : update_all_boids [cA, cB] 1 cMouse false = some [cA2, cB2] := by
  rw [update_all_boids, show List.range ([cA, cB].length) = [0, 1] from rfl]
  simp only [List.foldlM_cons, List.foldlM_nil]
  rw [hstep0]
  simp only [Option.bind_eq_bind, Option.some_bind]
  rw [hstep1]
  simp only [Option.some_bind]
  rfl

lemma halBs : Boid.align cB [cA, cB] = some ⟨0, 0⟩ := by
  rw [Boid.align, accumulate,
    if_pos ⟨neq_cA_cB, by rw [dist_cB_cA]; norm_num [PERCEPTION], by rw [dist_cB_cA]; norm_num⟩,
    Option.some_bind, accumulate, if_neg (by simp), accumulate]
  simp only [Option.bind_eq_bind, Option.some_bind]
  rw [if_pos (by norm_num)]
  have hv : ((0 : Vec) + cA.velocity) / ((0 + 1 : ℕ) : ℝ) = ⟨100, 0⟩ := by
    rw [Vec.zero_def, show cA.velocity = ⟨100, 0⟩ from rfl]
    norm_num
  rw [hv, normalize_mk_pos (by norm_num), Option.some_bind]
  have hs : (⟨1, 0⟩ : Vec) * MAX_SPEED - cB.velocity = ⟨0, 0⟩ := by
    rw [show cB.velocity = ⟨240, 0⟩ from rfl, MAX_SPEED]
    norm_num
  rw [hs, limit_of_le (by rw [Vec.length_mk_x]; norm_num [MAX_FORCE])]

lemma hcoBs : Boid.cohesion cB [cA, cB] = some ⟨-200, 0⟩ := by
  rw [Boid.cohesion, accumulate,
    if_pos ⟨neq_cA_cB, by rw [dist_cB_cA]; norm_num [PERCEPTION], by rw [dist_cB_cA]; norm_num⟩,
    Option.some_bind, accumulate, if_neg (by simp), accumulate]
  simp only [Option.bind_eq_bind, Option.some_bind]
  rw [if_pos (by norm_num)]
  have hv : ((0 : Vec) + cA.position) / ((0 + 1 : ℕ) : ℝ) - cB.position = ⟨-45, 0⟩ := by
    rw [Vec.zero_def, show cA.position = ⟨0, 0⟩ from rfl, show cB.position = ⟨45, 0⟩ from rfl]
    norm_num
  rw [hv, normalize_mk_neg (by norm_num), Option.some_bind]
  have hs : (⟨-1, 0⟩ : Vec) * MAX_SPEED - cB.velocity = ⟨-480, 0⟩ := by
    rw [show cB.velocity = ⟨240, 0⟩ from rfl, MAX_SPEED]
    norm_num
  rw [hs, limit_eval_clamp (by rw [Vec.length_mk_x]; norm_num [MAX_FORCE])
    (normalize_mk_neg (by norm_num)), MAX_FORCE]
  norm_num

lemma hseBs : Boid.separation cB [cA, cB] = some ⟨0, 0⟩ := by
  rw [Boid.separation, accumulate,
    if_pos ⟨neq_cA_cB, by rw [dist_cB_cA]; norm_num [SEPARATION], by rw [dist_cB_cA]; norm_num⟩]
  have hcon : (Vec.normalize (cB.position - cA.position)).map
      (fun (u : Vec) => u / dist_to cB.position cA.position) = some (⟨1 / 45, 0⟩ : Vec) := by
    rw [show cB.position - cA.position = ⟨45, 0⟩ by
        rw [show cB.position = ⟨45, 0⟩ from rfl, show cA.position = ⟨0, 0⟩ from rfl]; norm_num,
      normalize_mk_pos (by norm_num), dist_cB_cA, Option.map_some']
    norm_num
  rw [hcon, Option.some_bind, accumulate, if_neg (by simp), accumulate]
  simp only [Option.bind_eq_bind, Option.some_bind]
  rw [if_pos (by norm_num)]
  have hv : ((0 : Vec) + ⟨1 / 45, 0⟩) / ((0 + 1 : ℕ) : ℝ) = ⟨1 / 45, 0⟩ := by
    rw [Vec.zero_def]
    norm_num
  rw [hv, normalize_mk_pos (by norm_num), Option.some_bind]
  have hs : (⟨1, 0⟩ : Vec) * MAX_SPEED - cB.velocity = ⟨0, 0⟩ := by
    rw [show cB.velocity = ⟨240, 0⟩ from rfl, MAX_SPEED]
    norm_num
  rw [hs, limit_of_le (by rw [Vec.length_mk_x]; norm_num [MAX_FORCE])]

lemma happBs : Boid.apply_behavior cB [cA, cB] cMouse false = some cB1s := by
  rw [Boid.apply_behavior, halBs, hcoBs, hseBs, hreB]
  simp only [Option.bind_eq_bind, Option.some_bind]
  apply congrArg
  ext <;> norm_num [cB, cB1s]

lemma hupBs : Boid.update cB1s 1 = some cB2s := by
  rw [Boid.update]
  have hv1 : cB1s.velocity + cB1s.acceleration * (1 : ℝ) = ⟨40, 0⟩ := by
    rw [show cB1s.velocity = ⟨240, 0⟩ from rfl, show cB1s.acceleration = ⟨-200, 0⟩ from rfl]
    norm_num
  rw [hv1, if_neg (by rw [Vec.length_mk_x]; norm_num [MAX_SPEED])]
  simp only [Option.bind_eq_bind, Option.pure_def, Option.some_bind]
  apply congrArg
  ext <;> norm_num [cB1s, cB2s]

lemma hedBs : Boid.edges cB2s = cB2s := by
  rw [Boid.edges, show cB2s.position.x = (85 : ℝ) from rfl,
    show cB2s.position.y = (0 : ℝ) from rfl,
    if_neg (by norm_num [WIDTH]), if_neg (by norm_num),
    if_neg (by norm_num [HEIGHT]), if_neg (by norm_num)]
  rfl

lemma hsnap : update_all_boids_snapshot [cA, cB] 1 cMouse false = some [cA2, cB2s] := by
  rw [update_all_boids_snapshot]
  simp only [List.mapM_cons, List.mapM_nil]
  rw [happA, happBs]
  simp only [Option.bind_eq_bind, Option.some_bind, Option.pure_def]
  simp only [List.mapM_cons, List.mapM_nil]
  rw [hupA, hupBs, Option.map_some', Option.map_some', hedA, hedBs]
  simp only [Option.bind_eq_bind, Option.some_bind, Option.pure_def]

lemma normalize_zero_mk : Vec.normalize ⟨0, 0⟩ = none := by
  rw [Vec.normalize, if_pos]
  rw [Vec.length_mk_x]
  norm_num

lemma neq_czA_czS : czA ≠ czS := by
  intro h
  rw [czA, czS, Boid.mk.injEq, Vec.mk.injEq] at h
  norm_num at h

lemma neq_czB_czS : czB ≠ czS := by
  intro h
  rw [czB, czS, Boid.mk.injEq, Vec.mk.injEq] at h
  norm_num at h

lemma dist_czS_czA : dist_to czS.position czA.position = 10 := by
  rw [show czS.position = ⟨0, 0⟩ from rfl, show czA.position = ⟨10, 0⟩ from rfl, dist_to_mk_x]
  norm_num

lemma dist_czS_czB : dist_to czS.position czB.position = 20 := by
  rw [show czS.position = ⟨0, 0⟩ from rfl, show czB.position = ⟨20, 0⟩ from rfl, dist_to_mk_x]
  norm_num

lemma align_czS_none : Boid.align czS [czS, czA, czB] = none := by
  rw [Boid.align, accumulate, if_neg (by simp), accumulate,
    if_pos ⟨neq_czA_czS, by rw [dist_czS_czA]; norm_num [PERCEPTION],
      by rw [dist_czS_czA]; norm_num⟩,
    Option.some_bind, accumulate,
    if_pos ⟨neq_czB_czS, by rw [dist_czS_czB]; norm_num [PERCEPTION],
      by rw [dist_czS_czB]; norm_num⟩,
    Option.some_bind, accumulate]
  simp only [Option.bind_eq_bind, Option.some_bind]
  rw [if_pos (by norm_num)]
  have hv : (((0 : Vec) + czA.velocity) + czB.velocity) / ((0 + 1 + 1 : ℕ) : ℝ)
      = ⟨0, 0⟩ := by
    rw [Vec.zero_def, show czA.velocity = ⟨0, 1⟩ from rfl, show czB.velocity = ⟨0, -1⟩ from rfl]
    norm_num
  rw [hv, normalize_zero_mk]
  rfl

lemma hedge5 : Boid.edges cw5 = ⟨⟨WIDTH, 5⟩, ⟨0, 0⟩, ⟨0, 0⟩⟩ := by
  rw [Boid.edges, show cw5.position.x = (-1 : ℝ) from rfl,
    show cw5.position.y = (5 : ℝ) from rfl,
    if_neg (by norm_num [WIDTH]), if_pos (by norm_num),
    if_neg (by norm_num [HEIGHT]), if_neg (by norm_num)]
  rfl

lemma hedge6 : Boid.edges cw6 = ⟨⟨0, HEIGHT⟩, ⟨3, 4⟩, ⟨0, 0⟩⟩ := by
  rw [Boid.edges, show cw6.position.x = (1071 : ℝ) from rfl,
    show cw6.position.y = (-1 : ℝ) from rfl,
    if_pos (by norm_num [WIDTH]),
    if_neg (by norm_num [HEIGHT]), if_pos (by norm_num)]
  rfl

lemma apply_behavior_spec (self : Boid) (boids : List Boid) (mp : Vec) (att : Bool)
    (b2 : Boid) (h : self.apply_behavior boids mp att = some b2) :
    b2.position = self.position ∧ b2.velocity = self.velocity ∧
    ∃ al co se mo, self.align boids = some al ∧ self.cohesion boids = some co ∧
      self.separation boids = some se ∧ self.react_to_mouse mp att = some mo ∧
      b2.acceleration = self.acceleration + al + co + se + mo := by
  rw [Boid.apply_behavior] at h
  cases hal : self.align boids with
  | none => rw [hal] at h; simp at h
  | some al =>
    rw [hal] at h
    simp only [Option.bind_eq_bind, Option.some_bind] at h
    cases hco : self.cohesion boids with
    | none => rw [hco] at h; simp at h
    | some co =>
      rw [hco] at h
      simp only [Option.some_bind] at h
      cases hse : self.separation boids with
      | none => rw [hse] at h; simp at h
      | some se =>
        rw [hse] at h
        simp only [Option.some_bind] at h
        cases hmo : self.react_to_mouse mp att with
        | none => rw [hmo] at h; simp at h
        | some mo =>
          rw [hmo] at h
          simp only [Option.some_bind] at h
          have hb : b2 = { self with
              acceleration := self.acceleration + al + co + se + mo } :=
            (Option.some.inj h).symm
          subst hb
          exact ⟨rfl, rfl, al, co, se, mo, rfl, rfl, rfl, rfl, rfl⟩

lemma edges_position (b : Boid) : (Boid.edges b).position =
    ⟨if b.position.x > WIDTH then 0 else if b.position.x < 0 then WIDTH else b.position.x,
     if b.position.y > HEIGHT then 0 else if b.position.y < 0 then HEIGHT
      else b.position.y⟩ := by
  rw [Boid.edges]

lemma edges_velocity (b : Boid) : (Boid.edges b).velocity = b.velocity := by
  rw [Boid.edges]

/-- C1 (amended): update_all_boids is a sequential Gauss-Seidel sweep,
not a barrier update: agents are processed in list order, each agent is
fully integrated and wrapped before the next agent computes its forces,
so each agent evaluates its behaviors against a population in which all
earlier agents already carry their post-step state. -/
theorem C1_update_is_sequential : ∀ (boids : List Boid) (dt : ℝ) (mouse_pos : Vec)
    (att : Bool), update_all_boids boids dt mouse_pos att = seqUpdate dt mouse_pos att [] boids :=
  fun boids dt mp att => update_all_eq_seq boids dt mp att

/-- C1 counterexample: on a concrete two-boid population the sequential
update of the code and the pre-step-snapshot (barrier) semantics claimed
by the specification give different results, so the forces are not
evaluated against the same pre-step snapshot. -/
theorem C1_counterexample :
    update_all_boids [cA, cB] 1 cMouse false ≠
      update_all_boids_snapshot [cA, cB] 1 cMouse false := by
  rw [hseq, hsnap]
  intro h
  rw [Option.some.injEq, List.cons.injEq] at h
  obtain ⟨-, h2⟩ := h
  rw [List.cons.injEq] at h2
  obtain ⟨h3, -⟩ := h2
  rw [cB2, cB2s, Boid.mk.injEq, Vec.mk.injEq] at h3
  norm_num at h3

/-- C2 counterexample: an agent with two qualifying neighbors whose
velocities cancel averages a zero steering vector in align, so the
normalize call is reached with a zero-length vector (the computation
fails, modeled as none). -/
theorem C2_counterexample : Boid.align czS [czS, czA, czB] = none :=
  align_czS_none

/-- C2 (amended): the distance pre-checks do protect every per-neighbor
normalize: pointer-reaction never reaches normalize with a zero-length
vector (it always returns a force), and a strictly positive distance
guarantees the difference vector handed to normalize in the separation
loop body is normalizable.  The averaged steering vector of alignment,
cohesion and separation is, however, not covered by those pre-checks
and can be zero with neighbors present. -/
theorem C2_guarded_normalize :
    (∀ (self : Boid) (mp : Vec) (att : Bool), ∃ f, Boid.react_to_mouse self mp att = some f) ∧
    (∀ a b : Vec, 0 < dist_to a b → ∃ u, Vec.normalize (a - b) = some u) := by
  constructor
  · intro self mp att
    obtain ⟨f, hf, -⟩ := react_total self mp att
    exact ⟨f, hf⟩
  · intro a b h
    have hba : b - a ≠ 0 := by
      intro h0
      rw [dist_to, h0, Vec.length_zero] at h
      exact lt_irrefl 0 h
    have hab : a - b ≠ 0 := by
      intro h0
      apply hba
      have hx : a.x - b.x = 0 := by
        have := congrArg Vec.x h0
        simpa using this
      have hy : a.y - b.y = 0 := by
        have := congrArg Vec.y h0
        simpa using this
      ext <;> simp [Vec.zero_def] <;> linarith
    exact ⟨(a - b) / (a - b).length, Vec.normalize_of_ne _ hab⟩

/-- C2 witness: the pointer-reaction succeeds at a concrete input, and
the pre-checked normalize succeeds at two points at distance 10. -/
theorem C2_witness :
    0 < dist_to (⟨0, 0⟩ : Vec) ⟨10, 0⟩ ∧
    (∃ f, Boid.react_to_mouse cA cMouse true = some f) ∧
    ∃ u, Vec.normalize ((⟨0, 0⟩ : Vec) - ⟨10, 0⟩) = some u := by
  have hd : dist_to (⟨0, 0⟩ : Vec) ⟨10, 0⟩ = 10 := by
    rw [dist_to_mk_x]
    norm_num
  refine ⟨by rw [hd]; norm_num, C2_guarded_normalize.1 cA cMouse true, ?_⟩
  exact C2_guarded_normalize.2 ⟨0, 0⟩ ⟨10, 0⟩ (by rw [hd]; norm_num)

/-- C3: integrate adds acceleration times dt to the velocity, clamps the
result to MAX_SPEED (rescaling to exactly MAX_SPEED with direction
preserved when it exceeds the cap), moves the position by the post-clamp
velocity times dt, and resets the acceleration to zero. -/
theorem C3_integrate_clamps : ∀ (b : Boid) (dt : ℝ), ∃ b2, b.update dt = some b2 ∧
    b2.velocity.length ≤ MAX_SPEED ∧
    ((b.velocity + b.acceleration * dt).length > MAX_SPEED →
      b2.velocity.length = MAX_SPEED ∧
      ∃ c : ℝ, 0 < c ∧ b2.velocity = (b.velocity + b.acceleration * dt) * c) ∧
    b2.position = b.position + b2.velocity * dt ∧
    b2.acceleration = 0 :=
  update_spec

/-- C3 witness: a boid at speed 300 is clamped to speed exactly 240. -/
theorem C3_witness :
    Vec.length (cw3.velocity + cw3.acceleration * (1 : ℝ)) > MAX_SPEED ∧
    ∃ b2, cw3.update 1 = some b2 ∧ b2.velocity.length = MAX_SPEED := by
  have hv : cw3.velocity + cw3.acceleration * (1 : ℝ) = ⟨300, 0⟩ := by
    rw [show cw3.velocity = ⟨300, 0⟩ from rfl, show cw3.acceleration = ⟨0, 0⟩ from rfl]
    norm_num
  have hgt : Vec.length (cw3.velocity + cw3.acceleration * (1 : ℝ)) > MAX_SPEED := by
    rw [hv, Vec.length_mk_x]
    norm_num [MAX_SPEED]
  obtain ⟨b2, h1, -, h3, -, -⟩ := C3_integrate_clamps cw3 1
  exact ⟨hgt, b2, h1, (h3 hgt).1⟩

/-- C4: every force a behavior returns has magnitude at most MAX_FORCE. -/
theorem C4_forces_bounded :
    (∀ (self : Boid) (boids : List Boid) (f : Vec),
      self.align boids = some f → f.length ≤ MAX_FORCE) ∧
    (∀ (self : Boid) (boids : List Boid) (f : Vec),
      self.cohesion boids = some f → f.length ≤ MAX_FORCE) ∧
    (∀ (self : Boid) (boids : List Boid) (f : Vec),
      self.separation boids = some f → f.length ≤ MAX_FORCE) ∧
    (∀ (self : Boid) (mp : Vec) (att : Bool) (f : Vec),
      self.react_to_mouse mp att = some f → f.length ≤ MAX_FORCE) :=
  ⟨align_bound, cohesion_bound, separation_bound, react_bound⟩

/-- C4 witness: the four behaviors evaluated at concrete inputs return
forces of length at most MAX_FORCE. -/
theorem C4_witness :
    (Boid.align cA [] = some 0 ∧ Vec.length 0 ≤ MAX_FORCE) ∧
    (Boid.cohesion cA [] = some 0 ∧ Vec.length 0 ≤ MAX_FORCE) ∧
    (Boid.separation cA [] = some 0 ∧ Vec.length 0 ≤ MAX_FORCE) ∧
    (Boid.react_to_mouse cA cMouse false = some 0 ∧ Vec.length 0 ≤ MAX_FORCE) := by
  have h1 := align_isolated cA [] (by simp)
  have h2 := cohesion_isolated cA [] (by simp)
  have h3 := separation_isolated cA [] (by simp)
  exact ⟨⟨h1, C4_forces_bounded.1 cA [] 0 h1⟩,
    ⟨h2, C4_forces_bounded.2.1 cA [] 0 h2⟩,
    ⟨h3, C4_forces_bounded.2.2.1 cA [] 0 h3⟩,
    ⟨hreA, C4_forces_bounded.2.2.2 cA cMouse false 0 hreA⟩⟩

/-- C5 counterexample: a pre-wrap x of -1 is wrapped to x = WIDTH itself,
which lies outside the claimed half-open interval [0, WIDTH). -/
theorem C5_counterexample :
    (Boid.edges cw5).position.x = WIDTH ∧ ¬((Boid.edges cw5).position.x < WIDTH) := by
  rw [hedge5]
  exact ⟨rfl, lt_irrefl WIDTH⟩

/-- C5 (amended): after wrapBoundary every position lies in the closed
rectangle [0, WIDTH] x [0, HEIGHT]; the upper edges are attainable
because coordinates below 0 are set to WIDTH and HEIGHT themselves. -/
theorem C5_wrap_closed_rect : ∀ b : Boid,
    0 ≤ (Boid.edges b).position.x ∧ (Boid.edges b).position.x ≤ WIDTH ∧
    0 ≤ (Boid.edges b).position.y ∧ (Boid.edges b).position.y ≤ HEIGHT := by
  intro b
  simp only [edges_position, Vec.x_mk, Vec.y_mk]
  refine ⟨?_, ?_, ?_, ?_⟩ <;> split_ifs with h1 h2 <;>
    first
      | (norm_num [WIDTH, HEIGHT]; done)
      | (push_neg at h1 h2; linarith)

/-- C6 counterexample: for a boid at (WIDTH + 1, -1) the wrap sets x to 0
as claimed, but the other coordinate does not stay unchanged: y is also
wrapped, from -1 to HEIGHT. -/
theorem C6_counterexample :
    cw6.position.x > WIDTH ∧ (Boid.edges cw6).position.x = 0 ∧
    (Boid.edges cw6).position.y ≠ cw6.position.y := by
  refine ⟨by rw [show cw6.position.x = (1071 : ℝ) from rfl, WIDTH]; norm_num, ?_, ?_⟩
  · rw [hedge6]
  · rw [hedge6]
    rw [show (⟨⟨0, HEIGHT⟩, ⟨3, 4⟩, ⟨0, 0⟩⟩ : Boid).position.y = HEIGHT from rfl,
      show cw6.position.y = (-1 : ℝ) from rfl, HEIGHT]
    norm_num

/-- C6 (amended): wrapBoundary is toroidal: x above WIDTH becomes 0, x
below 0 becomes WIDTH, symmetrically for y; the velocity is always
unchanged, and for an agent beyond the right edge the y coordinate is
unchanged provided it lies within [0, HEIGHT]. -/
theorem C6_wrap_spec : ∀ b : Boid,
    (Boid.edges b).velocity = b.velocity ∧
    (b.position.x > WIDTH → (Boid.edges b).position.x = 0) ∧
    (b.position.x < 0 → (Boid.edges b).position.x = WIDTH) ∧
    (b.position.y > HEIGHT → (Boid.edges b).position.y = 0) ∧
    (b.position.y < 0 → (Boid.edges b).position.y = HEIGHT) ∧
    (b.position.x > WIDTH → 0 ≤ b.position.y → b.position.y ≤ HEIGHT →
      (Boid.edges b).position = ⟨0, b.position.y⟩) := by
  intro b
  refine ⟨edges_velocity b, ?_, ?_, ?_, ?_, ?_⟩
  · intro hx
    simp only [edges_position, Vec.x_mk]
    rw [if_pos hx]
  · intro hx
    simp only [edges_position, Vec.x_mk]
    rw [if_neg (by rw [WIDTH]; linarith), if_pos hx]
  · intro hy
    simp only [edges_position, Vec.y_mk]
    rw [if_pos hy]
  · intro hy
    simp only [edges_position, Vec.y_mk]
    rw [if_neg (by rw [HEIGHT]; linarith), if_pos hy]
  · intro hx hy0 hy1
    simp only [edges_position]
    rw [if_pos hx, if_neg (by linarith), if_neg (by linarith)]

/-- C6 witness: a boid at (1071, 5) wraps to (0, 5) with its velocity
and y coordinate unchanged. -/
theorem C6_witness :
    cwit6.position.x > WIDTH ∧ (Boid.edges cwit6).velocity = cwit6.velocity ∧
    (Boid.edges cwit6).position = ⟨0, cwit6.position.y⟩ := by
  have hx : cwit6.position.x > WIDTH := by
    rw [show cwit6.position.x = (1071 : ℝ) from rfl, WIDTH]
    norm_num
  obtain ⟨hv, -, -, -, -, hlast⟩ := C6_wrap_spec cwit6
  refine ⟨hx, hv, hlast hx ?_ ?_⟩
  · rw [show cwit6.position.y = (5 : ℝ) from rfl]
    norm_num
  · rw [show cwit6.position.y = (5 : ℝ) from rfl, HEIGHT]
    norm_num

/-- C7: an agent with no qualifying neighbor (every other agent is
either itself, at distance zero, or outside both the perception and the
separation radius) gets exactly the zero vector from alignment, cohesion
and separation, with no error. -/
theorem C7_isolated_zero_forces : ∀ (self : Boid) (boids : List Boid),
    (∀ b ∈ boids, b ≠ self →
      ¬(0 < dist_to self.position b.position ∧
        dist_to self.position b.position < PERCEPTION) ∧
      ¬(0 < dist_to self.position b.position ∧
        dist_to self.position b.position < SEPARATION)) →
    self.align boids = some 0 ∧ self.cohesion boids = some 0 ∧
      self.separation boids = some 0 := by
  intro self boids h
  refine ⟨align_isolated self boids ?_, cohesion_isolated self boids ?_,
    separation_isolated self boids ?_⟩
  · intro b hb hcon
    exact (h b hb hcon.1).1 ⟨hcon.2.2, hcon.2.1⟩
  · intro b hb hcon
    exact (h b hb hcon.1).1 ⟨hcon.2.2, hcon.2.1⟩
  · intro b hb hcon
    exact (h b hb hcon.1).2 ⟨hcon.2.2, hcon.2.1⟩

/-- C7 witness: a population holding only the acting agent itself. -/
theorem C7_witness :
    Boid.align cA [cA] = some 0 ∧ Boid.cohesion cA [cA] = some 0 ∧
      Boid.separation cA [cA] = some 0 :=
  C7_isolated_zero_forces cA [cA] (by
    intro b hb hne
    rw [List.mem_singleton] at hb
    exact absurd hb hne)

/-- C8: appending n new boids grows the population by exactly n, and a
shrink request removes exactly min n population boids, so the population
never goes negative and an oversized request empties the flock. -/
theorem C8_grow_shrink : ∀ (flock new : List Boid) (n : Nat),
    (grow flock new).length = flock.length + new.length ∧
    (shrink n flock).length + min n flock.length = flock.length := by
  intro flock new n
  constructor
  · rw [grow, List.length_append]
  · rw [shrink, popN_length (min n flock.length) flock (Nat.min_le_right n flock.length)]
    omega

/-- C9: the frame update is a pure function of the population snapshot,
dt, pointer position and mode: equal inputs give equal results. -/
theorem C9_deterministic : ∀ (l1 l2 : List Boid) (dt1 dt2 : ℝ) (m1 m2 : Vec)
    (a1 a2 : Bool), l1 = l2 → dt1 = dt2 → m1 = m2 → a1 = a2 →
    update_all_boids l1 dt1 m1 a1 = update_all_boids l2 dt2 m2 a2 := by
  intro l1 l2 dt1 dt2 m1 m2 a1 a2 h1 h2 h3 h4
  rw [h1, h2, h3, h4]

/-- C9 witness: determinism instantiated at a concrete input. -/
theorem C9_witness :
    update_all_boids [cA] 1 cMouse false = update_all_boids [cA] 1 cMouse false :=
  C9_deterministic [cA] [cA] 1 1 cMouse cMouse false false rfl rfl rfl rfl

/-- C10: behavior evaluation only accumulates the four forces into the
acceleration of the acting agent: position and velocity are unchanged
and the new acceleration is the old one plus the four returned forces. -/
theorem C10_pure_readers : ∀ (self : Boid) (boids : List Boid) (mp : Vec) (att : Bool)
    (b2 : Boid), self.apply_behavior boids mp att = some b2 →
    b2.position = self.position ∧ b2.velocity = self.velocity ∧
    ∃ al co se mo, self.align boids = some al ∧ self.cohesion boids = some co ∧
      self.separation boids = some se ∧ self.react_to_mouse mp att = some mo ∧
      b2.acceleration = self.acceleration + al + co + se + mo :=
  apply_behavior_spec

/-- C10 witness: behavior application at a concrete input keeps position
and velocity. -/
theorem C10_witness : ∃ b2, Boid.apply_behavior cA [] cMouse false = some b2 ∧
    b2.position = cA.position ∧ b2.velocity = cA.velocity := by
  have happ : Boid.apply_behavior cA [] cMouse false
      = some { cA with acceleration := cA.acceleration + 0 + 0 + 0 + 0 } := by
    rw [Boid.apply_behavior, align_isolated cA [] (by simp),
      cohesion_isolated cA [] (by simp), separation_isolated cA [] (by simp), hreA]
    simp only [Option.bind_eq_bind, Option.some_bind]
    rfl
  obtain ⟨h1, h2, -⟩ := C10_pure_readers cA [] cMouse false _ happ
  exact ⟨_, happ, h1, h2⟩
